import Mathlib

/-!
Verification of the `idmanager` package (`pkg/app2/idmanager/manager.go`).

The Go `Manager` holds `values : map[uint16]interface{}` and a cursor
`lstID : uint16`.  We embed it shallowly:

* a table entry of type `interface{}` that may be Go `nil` becomes
  `Option V` (`Option.none` models Go `nil`, i.e. a reserved-empty slot);
* map presence/absence becomes an outer `Option`, so the table is a
  function `Nat → Option (Option V)` (meaningful keys are `< 65536`;
  all arithmetic on keys is done modulo `65536`, mirroring `uint16`);
* each mutating method becomes a pure function returning its result
  together with the post-state (`Except` error × new `Manager`); the Go
  error paths return with the state untouched, which the embedding
  mirrors by returning the input manager unchanged.
-/

namespace IdManager

/-- The error taxonomy of the package (Go sentinel errors / `fmt.Errorf`
messages, named as in the spec). -/
inductive IdErr where
  | noMoreAvailableValues
  | noSuchKey
  | valueNotSet
  | alreadyExists
  | notReserved
deriving DecidableEq, Repr

/-- `Manager` state: the `values` table (`Option.none` = key absent,
`some Option.none` = reserved-empty, `some (some v)` = occupied) and the
cursor `lstID` (the last issued key). -/
@[ext]
structure Manager (V : Type) where
  values : Nat → Option (Option V)
  lstID : Nat

variable {V : Type}

/-- Go map assignment `m.values[id] = v` (with `v : Option V`, `Option.none`
standing for Go `nil`). -/
def insertVal (t : Nat → Option (Option V)) (id : Nat) (v : Option V) :
    Nat → Option (Option V) :=
  fun j => if j = id then some v else t j

/-- Go `delete(m.values, id)`. -/
def deleteVal (t : Nat → Option (Option V)) (id : Nat) :
    Nat → Option (Option V) :=
  fun j => if j = id then Option.none else t j

/-- `New` constructs an empty manager: empty table, zero cursor. -/
def New : Manager V :=
  ⟨fun _ => Option.none, 0⟩

/-- The scan loop of `ReserveNextID`: starting at key `s`, look for the
first key whose table entry is absent, incrementing modulo `2^16`.  The
Go loop `for ; nxtID != m.lstID; nxtID++` starting at `lstID+1` examines
at most `65535` keys (every key except `lstID` itself) before wrapping
back to `lstID`; the fuel argument `65535` captures exactly that bound,
and exhausted fuel models the loop exiting with `nxtID == m.lstID`. -/
def scanFrom (t : Nat → Option (Option V)) : Nat → Nat → Option Nat
  | 0, _ => Option.none
  | fuel + 1, k =>
      match t k with
      | Option.none => some k
      | some _ => scanFrom t fuel ((k + 1) % 65536)

/-- `constructFreeFunc` returns a closure deleting `id`; in the embedding
the closure is this state transformer applied at call time. -/
def Manager.constructFreeFunc (m : Manager V) (id : Nat) : Manager V :=
  ⟨deleteVal m.values id, m.lstID⟩

/-- `ReserveNextID`: scan from `lstID + 1` (mod `2^16`) for the first
absent key; on success mark it reserved-empty (`nil` entry) and advance
the cursor; if the scan wraps back to `lstID`, fail with
`NoMoreAvailableValues` leaving the state untouched. -/
def Manager.ReserveNextID (m : Manager V) : Except IdErr Nat × Manager V :=
  match scanFrom m.values 65535 ((m.lstID + 1) % 65536) with
  | Option.none => (Except.error IdErr.noMoreAvailableValues, m)
  | some k => (Except.ok k, ⟨insertVal m.values k Option.none, k⟩)

/-- `Pop`: remove and return the value for `id`; absent keys fail with
`NoSuchKey` ("no value with id"), reserved-empty keys fail with
`ValueNotSet` ("value with id ... is not set"). -/
def Manager.Pop (m : Manager V) (id : Nat) : Except IdErr V × Manager V :=
  match m.values id with
  | Option.none => (Except.error IdErr.noSuchKey, m)
  | some Option.none => (Except.error IdErr.valueNotSet, m)
  | some (some v) => (Except.ok v, ⟨deleteVal m.values id, m.lstID⟩)

/-- `Add`: bind `v` to `id` only if `id` is not present at all. -/
def Manager.Add (m : Manager V) (id : Nat) (v : V) :
    Except IdErr Unit × Manager V :=
  match m.values id with
  | some _ => (Except.error IdErr.alreadyExists, m)
  | Option.none => (Except.ok (), ⟨insertVal m.values id (some v), m.lstID⟩)

/-- `Set`: bind `v` to a previously reserved (present, `nil`-valued) key;
absent keys fail with `NotReserved` ("id is not reserved"), occupied keys
with `AlreadyExists`. -/
def Manager.Set (m : Manager V) (id : Nat) (v : V) :
    Except IdErr Unit × Manager V :=
  match m.values id with
  | Option.none => (Except.error IdErr.notReserved, m)
  | some (some _) => (Except.error IdErr.alreadyExists, m)
  | some Option.none => (Except.ok (), ⟨insertVal m.values id (some v), m.lstID⟩)

/-- `Get`: read-only lookup; the Go code returns `(nil, false)` whenever
the stored entry is `nil` — which covers both the absent key (map zero
value) and the reserved-empty key. -/
def Manager.Get (m : Manager V) (id : Nat) : Option V × Bool :=
  match m.values id with
  | Option.none => (Option.none, false)
  | some Option.none => (Option.none, false)
  | some (some v) => (some v, true)

/-! ### Scan lemmas -/

/-- The scan returns `none` exactly when every key it examines (the `fuel`
keys `s, s+1, …` modulo `2^16`) is present in the table. -/
theorem scanFrom_none_iff (t : Nat → Option (Option V)) :
    ∀ (fuel s : Nat), s < 65536 →
      (scanFrom t fuel s = Option.none ↔
        ∀ i, i < fuel → t ((s + i) % 65536) ≠ Option.none) := by
  intro fuel
  induction fuel with
  | zero =>
      intro s hs
      simp [scanFrom]
  | succ fuel ih =>
      intro s hs
      rw [scanFrom]
      cases ht : t s with
      | none =>
          simp only []
          constructor
          · intro h
            exact absurd h (by simp)
          · intro h
            have h0 := h 0 (Nat.succ_pos fuel)
            rw [Nat.add_zero, Nat.mod_eq_of_lt hs] at h0
            exact absurd ht h0
      | some w =>
          simp only []
          rw [ih ((s + 1) % 65536) (Nat.mod_lt _ (by omega))]
          constructor
          · intro h i hi
            cases i with
            | zero =>
                rw [Nat.add_zero, Nat.mod_eq_of_lt hs, ht]
                simp
            | succ i =>
                have hh := h i (by omega)
                rw [Nat.mod_add_mod] at hh
                have e : s + 1 + i = s + (i + 1) := by omega
                rw [e] at hh
                exact hh
          · intro h i hi
            have hh := h (i + 1) (by omega)
            rw [Nat.mod_add_mod]
            have e : s + 1 + i = s + (i + 1) := by omega
            rw [e]
            exact hh

/-- If the scan returns `some k`, then `k` is the first absent key in scan
order from `s`. -/
theorem scanFrom_some_spec (t : Nat → Option (Option V)) :
    ∀ (fuel s k : Nat), s < 65536 → scanFrom t fuel s = some k →
      ∃ i, i < fuel ∧ k = (s + i) % 65536 ∧ t k = Option.none ∧
        ∀ j, j < i → t ((s + j) % 65536) ≠ Option.none := by
  intro fuel
  induction fuel with
  | zero =>
      intro s k hs h
      exact absurd h (by simp [scanFrom])
  | succ fuel ih =>
      intro s k hs h
      rw [scanFrom] at h
      cases ht : t s with
      | none =>
          rw [ht] at h
          simp only [Option.some.injEq] at h
          refine ⟨0, Nat.succ_pos fuel, ?_, ?_, ?_⟩
          · rw [Nat.add_zero, Nat.mod_eq_of_lt hs, h]
          · rw [← h]; exact ht
          · intro j hj; omega
      | some w =>
          rw [ht] at h
          obtain ⟨i, hi, hk, hkt, hfirst⟩ :=
            ih ((s + 1) % 65536) k (Nat.mod_lt _ (by omega)) h
          refine ⟨i + 1, by omega, ?_, hkt, ?_⟩
          · rw [hk, Nat.mod_add_mod]
            have e : s + 1 + i = s + (i + 1) := by omega
            rw [e]
          · intro j hj
            cases j with
            | zero =>
                rw [Nat.add_zero, Nat.mod_eq_of_lt hs, ht]
                simp
            | succ j =>
                have hh := hfirst j (by omega)
                rw [Nat.mod_add_mod] at hh
                have e : s + 1 + j = s + (j + 1) := by omega
                rw [e] at hh
                exact hh

/-! ### `ReserveNextID` characterization -/

/-- On success, `ReserveNextID` returns a key that was absent, is the first
absent key scanning from `lstID + 1` with wraparound, becomes reserved-empty
in the post-state, leaves every other entry unchanged, and becomes the new
cursor. -/
theorem ReserveNextID_ok_spec (m : Manager V) (k : Nat)
    (h : (m.ReserveNextID).fst = Except.ok k) :
    m.values k = Option.none ∧
    (∃ i, i < 65535 ∧ k = (m.lstID + 1 + i) % 65536 ∧
      ∀ j, j < i → m.values ((m.lstID + 1 + j) % 65536) ≠ Option.none) ∧
    (m.ReserveNextID).snd.values k = some Option.none ∧
    (∀ j, j ≠ k → (m.ReserveNextID).snd.values j = m.values j) ∧
    (m.ReserveNextID).snd.lstID = k := by
  unfold Manager.ReserveNextID at h ⊢
  cases hsc : scanFrom m.values 65535 ((m.lstID + 1) % 65536) with
  | none =>
      rw [hsc] at h
      exact absurd h (by simp)
  | some k' =>
      rw [hsc] at h
      simp only [Except.ok.injEq] at h
      subst h
      obtain ⟨i, hi, hk, hkt, hfirst⟩ :=
        scanFrom_some_spec m.values 65535 ((m.lstID + 1) % 65536) k'
          (Nat.mod_lt _ (by omega)) hsc
      rw [Nat.mod_add_mod] at hk
      refine ⟨hkt, ⟨i, hi, hk, ?_⟩, ?_, ?_, ?_⟩
      · intro j hj
        have hh := hfirst j hj
        rw [Nat.mod_add_mod] at hh
        exact hh
      · simp [hsc, insertVal]
      · intro j hj
        simp [hsc, insertVal, hj]
      · simp [hsc]

/-- When `ReserveNextID` fails, the state is returned untouched and the
error is `NoMoreAvailableValues`. -/
theorem ReserveNextID_error_spec (m : Manager V)
    (h : ∀ k, (m.ReserveNextID).fst ≠ Except.ok k) :
    (m.ReserveNextID).fst = Except.error IdErr.noMoreAvailableValues ∧
    (m.ReserveNextID).snd = m := by
  unfold Manager.ReserveNextID at h ⊢
  cases hsc : scanFrom m.values 65535 ((m.lstID + 1) % 65536) with
  | none => exact ⟨rfl, rfl⟩
  | some k' =>
      have hk := h k'
      rw [hsc] at hk
      exact absurd rfl hk

/-! ### Claims about `Get`, `Add`, `Pop`, the cursor and error frames -/

/-- C5: `Get` returns `(null, not-found)` both on an absent key and on a
reserved-empty key, and the two answers coincide: the two states are
indistinguishable through `Get`. -/
theorem claim_C5_get_indistinguishable (m m' : Manager V) (k k' : Nat)
    (h : m.values k = Option.none) (h' : m'.values k' = some Option.none) :
    m.Get k = (Option.none, false) ∧ m'.Get k' = (Option.none, false) ∧
    m.Get k = m'.Get k' := by
  simp [Manager.Get, h, h']

/-- Witness for C5 at concrete states: key 3 absent in an empty table,
key 5 reserved-empty in an all-reserved table. -/
theorem claim_C5_witness :
    Manager.Get (New : Manager Nat) 3 = (Option.none, false) ∧
    Manager.Get (⟨fun _ => some Option.none, 0⟩ : Manager Nat) 5 =
      (Option.none, false) ∧
    Manager.Get (New : Manager Nat) 3 =
      Manager.Get (⟨fun _ => some Option.none, 0⟩ : Manager Nat) 5 :=
  claim_C5_get_indistinguishable (New : Manager Nat)
    (⟨fun _ => some Option.none, 0⟩ : Manager Nat) 3 5 rfl rfl

/-- C2: `Add` on an absent key succeeds and `Get` then returns the value;
`Add` on a present key (reserved-empty or occupied) fails with
`AlreadyExists` and leaves the whole state, in particular the stored
value, unchanged. -/
theorem claim_C2_add_then_get (m : Manager V) (k : Nat) (v : V) :
    (m.values k = Option.none →
      (m.Add k v).fst = Except.ok () ∧ (m.Add k v).snd.Get k = (some v, true)) ∧
    (m.values k ≠ Option.none →
      (m.Add k v).fst = Except.error IdErr.alreadyExists ∧ (m.Add k v).snd = m) := by
  constructor
  · intro h
    simp [Manager.Add, h, Manager.Get, insertVal]
  · intro h
    rcases hv : m.values k with _ | w
    · exact absurd hv h
    · simp [Manager.Add, hv]

/-- Witness for C2: adding 7 at the fresh key 5 of an empty manager. -/
theorem claim_C2_witness :
    ((New : Manager Nat).Add 5 7).fst = Except.ok () ∧
    ((New : Manager Nat).Add 5 7).snd.Get 5 = (some 7, true) :=
  (claim_C2_add_then_get (New : Manager Nat) 5 7).1 rfl

/-- C4: `Pop` fails with `NoSuchKey` exactly on absent keys, fails with
`ValueNotSet` exactly on reserved-empty keys, and on an occupied key
returns the stored value and makes the key absent (subsequent `Get`
returns not-found). -/
theorem claim_C4_pop (m : Manager V) (k : Nat) :
    ((m.Pop k).fst = Except.error IdErr.noSuchKey ↔ m.values k = Option.none) ∧
    ((m.Pop k).fst = Except.error IdErr.valueNotSet ↔
      m.values k = some Option.none) ∧
    (∀ v, m.values k = some (some v) →
      (m.Pop k).fst = Except.ok v ∧ (m.Pop k).snd.values k = Option.none ∧
      (m.Pop k).snd.Get k = (Option.none, false)) := by
  refine ⟨?_, ?_, ?_⟩
  · rcases hv : m.values k with _ | (_ | w) <;> simp [Manager.Pop, hv]
  · rcases hv : m.values k with _ | (_ | w) <;> simp [Manager.Pop, hv]
  · intro v hv
    simp [Manager.Pop, hv, deleteVal, Manager.Get]

/-- Witness for C4 at a concrete occupied key. -/
theorem claim_C4_witness :
    ((⟨fun _ => some (some 42), 0⟩ : Manager Nat).Pop 7).fst = Except.ok 42 ∧
    ((⟨fun _ => some (some 42), 0⟩ : Manager Nat).Pop 7).snd.values 7 =
      Option.none ∧
    ((⟨fun _ => some (some 42), 0⟩ : Manager Nat).Pop 7).snd.Get 7 =
      (Option.none, false) :=
  (claim_C4_pop (⟨fun _ => some (some 42), 0⟩ : Manager Nat) 7).2.2 42 rfl

/-- C6: only `ReserveNextID` moves the cursor — `Add`, `Set`, `Pop` and the
release closure all leave `lstID` unchanged, on success and on failure. -/
theorem claim_C6_cursor_frame (m : Manager V) (k : Nat) (v : V) :
    (m.Add k v).snd.lstID = m.lstID ∧
    (m.Set k v).snd.lstID = m.lstID ∧
    (m.Pop k).snd.lstID = m.lstID ∧
    (m.constructFreeFunc k).lstID = m.lstID := by
  refine ⟨?_, ?_, ?_, rfl⟩
  · rcases hv : m.values k with _ | w <;> simp [Manager.Add, hv]
  · rcases hv : m.values k with _ | (_ | w) <;> simp [Manager.Set, hv]
  · rcases hv : m.values k with _ | (_ | w) <;> simp [Manager.Pop, hv]

/-- C8: the release closure removes its key whatever the current value,
is a no-op on an already absent key, and is idempotent. -/
theorem claim_C8_free_idempotent (m : Manager V) (k : Nat) :
    (m.constructFreeFunc k).values k = Option.none ∧
    (m.values k = Option.none → m.constructFreeFunc k = m) ∧
    (m.constructFreeFunc k).constructFreeFunc k = m.constructFreeFunc k := by
  refine ⟨by simp [Manager.constructFreeFunc, deleteVal], ?_, ?_⟩
  · intro h
    apply Manager.ext
    · funext j
      show deleteVal m.values k j = m.values j
      unfold deleteVal
      by_cases hj : j = k
      · subst hj
        simp [h]
      · simp [hj]
    · rfl
  · apply Manager.ext
    · funext j
      show deleteVal (deleteVal m.values k) k j = deleteVal m.values k j
      unfold deleteVal
      by_cases hj : j = k <;> simp [hj]
    · rfl

/-- Witness for C8: releasing an absent key of the empty manager is the
identity. -/
theorem claim_C8_witness :
    Manager.constructFreeFunc (New : Manager Nat) 9 = (New : Manager Nat) :=
  (claim_C8_free_idempotent (New : Manager Nat) 9).2.1 rfl

/-- C10: every failing operation returns the state exactly as it was:
no entry is added, removed or modified, and the cursor is untouched. -/
theorem claim_C10_error_frame (m : Manager V) (k : Nat) (v : V) :
    (∀ e, (m.Pop k).fst = Except.error e → (m.Pop k).snd = m) ∧
    (∀ e, (m.Add k v).fst = Except.error e → (m.Add k v).snd = m) ∧
    (∀ e, (m.Set k v).fst = Except.error e → (m.Set k v).snd = m) ∧
    (∀ e, (m.ReserveNextID).fst = Except.error e →
      (m.ReserveNextID).snd = m) := by
  refine ⟨?_, ?_, ?_, ?_⟩
  · intro e he
    rcases hv : m.values k with _ | (_ | w)
    · simp [Manager.Pop, hv]
    · simp [Manager.Pop, hv]
    · simp [Manager.Pop, hv] at he
  · intro e he
    rcases hv : m.values k with _ | w
    · simp [Manager.Add, hv] at he
    · simp [Manager.Add, hv]
  · intro e he
    rcases hv : m.values k with _ | (_ | w)
    · simp [Manager.Set, hv]
    · simp [Manager.Set, hv] at he
    · simp [Manager.Set, hv]
  · intro e he
    cases hsc : scanFrom m.values 65535 ((m.lstID + 1) % 65536) with
    | none => simp [Manager.ReserveNextID, hsc]
    | some k' => simp [Manager.ReserveNextID, hsc] at he

/-- Witness for C10: `Pop` on the empty manager fails and changes nothing. -/
theorem claim_C10_witness :
    ((New : Manager Nat).Pop 0).snd = (New : Manager Nat) :=
  (claim_C10_error_frame (New : Manager Nat) 0 0).1 IdErr.noSuchKey rfl

/-! ### C1 and C7: reservation success and exhaustion -/

/-- C1: a successful `ReserveNextID` returns the first key absent from the
table in scan order from `cursor + 1` with 16-bit wraparound; that key is
marked reserved-empty and becomes the new cursor. -/
theorem claim_C1_reserve_first_free (m : Manager V) (k : Nat)
    (h : (m.ReserveNextID).fst = Except.ok k) :
    (∃ i, i < 65535 ∧ k = (m.lstID + 1 + i) % 65536 ∧
      m.values k = Option.none ∧
      ∀ j, j < i → m.values ((m.lstID + 1 + j) % 65536) ≠ Option.none) ∧
    (m.ReserveNextID).snd.values k = some Option.none ∧
    (∀ j, j ≠ k → (m.ReserveNextID).snd.values j = m.values j) ∧
    (m.ReserveNextID).snd.lstID = k := by
  obtain ⟨habs, ⟨i, hi, hk, hfirst⟩, hres, hframe, hcur⟩ :=
    ReserveNextID_ok_spec m k h
  exact ⟨⟨i, hi, hk, habs, hfirst⟩, hres, hframe, hcur⟩

/-- Witness for C1: on the empty manager the first reservation yields
key 1 and moves the cursor there. -/
theorem claim_C1_witness :
    ((New : Manager Nat).ReserveNextID).snd.lstID = 1 :=
  (claim_C1_reserve_first_free (New : Manager Nat) 1 rfl).2.2.2

/-- C7: `ReserveNextID` fails with `NoMoreAvailableValues` whenever all
65536 keys are occupied; the failure happens precisely when the scan wraps
back to the cursor without meeting an absent key (i.e. every key other
than `lstID` is present); on failure the state is returned unchanged. -/
theorem claim_C7_full_fails (m : Manager V) (hl : m.lstID < 65536) :
    ((∀ j, j < 65536 → m.values j ≠ Option.none) →
      (m.ReserveNextID).fst = Except.error IdErr.noMoreAvailableValues) ∧
    ((m.ReserveNextID).fst = Except.error IdErr.noMoreAvailableValues ↔
      ∀ j, j < 65536 → j ≠ m.lstID → m.values j ≠ Option.none) ∧
    ((m.ReserveNextID).fst = Except.error IdErr.noMoreAvailableValues →
      (m.ReserveNextID).snd = m) := by
  have hscan : (m.ReserveNextID).fst =
      Except.error IdErr.noMoreAvailableValues ↔
      scanFrom m.values 65535 ((m.lstID + 1) % 65536) = Option.none := by
    unfold Manager.ReserveNextID
    cases hsc : scanFrom m.values 65535 ((m.lstID + 1) % 65536) <;>
      simp [hsc]
  have hiff : scanFrom m.values 65535 ((m.lstID + 1) % 65536) = Option.none ↔
      ∀ i, i < 65535 → m.values ((m.lstID + 1 + i) % 65536) ≠ Option.none := by
    rw [scanFrom_none_iff m.values 65535 ((m.lstID + 1) % 65536)
      (Nat.mod_lt _ (by omega))]
    constructor
    · intro h i hi
      have hh := h i hi
      rwa [Nat.mod_add_mod] at hh
    · intro h i hi
      rw [Nat.mod_add_mod]
      exact h i hi
  have hmain : (m.ReserveNextID).fst =
      Except.error IdErr.noMoreAvailableValues ↔
      ∀ j, j < 65536 → j ≠ m.lstID → m.values j ≠ Option.none := by
    rw [hscan, hiff]
    constructor
    · intro hall j hj hjne
      have hlt : (j + 65535 - m.lstID) % 65536 < 65535 := by omega
      have hkey : (m.lstID + 1 + (j + 65535 - m.lstID) % 65536) % 65536 = j := by
        omega
      have hh := hall _ hlt
      rwa [hkey] at hh
    · intro hall i hi
      refine hall _ (Nat.mod_lt _ (by omega)) ?_
      omega
  refine ⟨?_, hmain, ?_⟩
  · intro hall
    exact hmain.mpr (fun j hj _ => hall j hj)
  · intro herr
    rw [hscan] at herr
    unfold Manager.ReserveNextID
    rw [herr]

/-- Witness for C7: a manager whose 65536 slots are all occupied cannot
reserve. -/
theorem claim_C7_witness :
    ((⟨fun _ => some (some 0), 0⟩ : Manager Nat).ReserveNextID).fst =
      Except.error IdErr.noMoreAvailableValues :=
  (claim_C7_full_fails (⟨fun _ => some (some 0), 0⟩ : Manager Nat)
    (by decide)).1 (fun j _ h => Option.noConfusion h)

/-! ### C3: `Set` succeeds exactly once on a reserved key -/

/-- Run a sequence of `Set` calls on key `k`, threading the state, and
collect each call's result. -/
def runSets (k : Nat) : Manager V → List V → List (Except IdErr Unit)
  | _, [] => []
  | m, v :: vs => (m.Set k v).fst :: runSets k (m.Set k v).snd vs

/-- `Set` on an occupied key fails with `AlreadyExists` and leaves the
state unchanged. -/
theorem Set_occupied (m : Manager V) (k : Nat) (v w : V)
    (h : m.values k = some (some w)) :
    (m.Set k v).fst = Except.error IdErr.alreadyExists ∧ (m.Set k v).snd = m := by
  simp [Manager.Set, h]

/-- Once key `k` is occupied, every `Set` in a sequence on `k` fails. -/
theorem runSets_occupied (k : Nat) (w : V) :
    ∀ (vs : List V) (m : Manager V), m.values k = some (some w) →
      runSets k m vs = vs.map (fun _ => Except.error IdErr.alreadyExists) := by
  intro vs
  induction vs with
  | nil =>
      intro m hm
      simp [runSets]
  | cons v vs ih =>
      intro m hm
      obtain ⟨hf, hs⟩ := Set_occupied m k v w hm
      simp only [runSets, hf, hs, List.map]
      rw [ih m hm]

/-- C3: `Set` fails with `NotReserved` on an absent key, fails with
`AlreadyExists` on an occupied key, and on a reserved-empty key the first
`Set` of any sequence succeeds while every later one fails with
`AlreadyExists`. -/
theorem claim_C3_set_once (m : Manager V) (k : Nat) (v : V) :
    (m.values k = Option.none →
      (m.Set k v).fst = Except.error IdErr.notReserved) ∧
    (∀ w, m.values k = some (some w) →
      (m.Set k v).fst = Except.error IdErr.alreadyExists) ∧
    (m.values k = some Option.none →
      ∀ vs : List V, runSets k m (v :: vs) =
        Except.ok () :: vs.map (fun _ => Except.error IdErr.alreadyExists)) := by
  refine ⟨fun h => by simp [Manager.Set, h],
    fun w h => (Set_occupied m k v w h).1, ?_⟩
  intro h vs
  have hok : (m.Set k v).fst = Except.ok () := by
    simp [Manager.Set, h]
  have hpost : (m.Set k v).snd.values k = some (some v) := by
    simp [Manager.Set, h, insertVal]
  simp only [runSets, hok, List.cons.injEq, true_and]
  exact runSets_occupied k v vs (m.Set k v).snd hpost

/-- Witness for C3: on a manager whose key 4 is reserved-empty, setting
10 then 20 then 30 succeeds once and fails twice. -/
theorem claim_C3_witness :
    runSets 4 (⟨fun _ => some Option.none, 0⟩ : Manager Nat) (10 :: [20, 30]) =
      Except.ok () ::
        [20, 30].map (fun _ => Except.error IdErr.alreadyExists) :=
  (claim_C3_set_once (⟨fun _ => some Option.none, 0⟩ : Manager Nat) 4 10).2.2
    rfl [20, 30]

/-! ### C9: successive reservations return pairwise distinct keys -/

/-- Perform `n` consecutive `ReserveNextID` calls, threading the state and
collecting the keys of the successful calls in order. -/
def reserveN (m : Manager V) : Nat → Manager V × List Nat
  | 0 => (m, [])
  | n + 1 =>
      let r := reserveN m n
      let step := r.1.ReserveNextID
      match step.1 with
      | Except.ok k => (step.2, r.2 ++ [k])
      | Except.error _ => (step.2, r.2)

/-- C9: the keys returned by any sequence of `ReserveNextID` calls with no
intervening removal are pairwise distinct, and every reserved key is still
present in the final table. -/
theorem claim_C9_reserved_keys_distinct (m : Manager V) (n : Nat) :
    ((reserveN m n).2).Nodup ∧
    ∀ k, k ∈ (reserveN m n).2 →
      (reserveN m n).1.values k ≠ Option.none := by
  induction n with
  | zero =>
      constructor
      · exact List.nodup_nil
      · intro k hk
        exact absurd hk (List.not_mem_nil k)
  | succ n ih =>
      obtain ⟨hnd, hmem⟩ := ih
      simp only [reserveN]
      cases hf : ((reserveN m n).1.ReserveNextID).fst with
      | error e =>
          simp only []
          have hsnd : ((reserveN m n).1.ReserveNextID).snd = (reserveN m n).1 :=
            (ReserveNextID_error_spec (reserveN m n).1
              (fun k hk => by rw [hf] at hk; exact Except.noConfusion hk)).2
          rw [hsnd]
          exact ⟨hnd, hmem⟩
      | ok k =>
          simp only []
          obtain ⟨habs, _, hres, hframe, _⟩ :=
            ReserveNextID_ok_spec (reserveN m n).1 k hf
          have hknotin : k ∉ (reserveN m n).2 := by
            intro hkin
            exact hmem k hkin habs
          constructor
          · rw [List.nodup_append]
            exact ⟨hnd, List.nodup_singleton k,
              fun a ha hb => hknotin (by
                rw [List.mem_singleton] at hb
                rwa [hb] at ha)⟩
          · intro k' hk'
            rw [List.mem_append, List.mem_singleton] at hk'
            by_cases hkk : k' = k
            · subst hkk
              rw [hres]
              simp
            · rw [hframe k' hkk]
              cases hk' with
              | inl hin => exact hmem k' hin
              | inr heq => exact absurd heq hkk

end IdManager
